import Mathlib

/-!
Shallow embedding of `tests/integration_tests/performance/test_mmds_vsock.py`.

The test drives `NO_OF_MICROVMS` microVMs: a configure loop (`_configure_and_run`
plus an SSH liveness probe, lines 204-213), then a `try:` block running 1000
rounds, each round being a vsock-echo loop (`_run_vsock`, lines 221-224)
followed by an MMDS patch loop (`_patch_mmds`, lines 225-227); an
`except Exception` handler (lines 233-241) that prints the exception and its
stack trace; and a `finally:` block (lines 242-248) that prints every
microVM's log data, calls `close_guest_connections()` and kills every microVM.

The embedding makes the environment explicit: a `Behavior` assigns to each
operation the exception it would raise (if any), distinguishing ordinary
`Exception`s (caught by `except Exception`) from `BaseException`-style
interruptions such as `KeyboardInterrupt` (not caught, but `finally` still
runs).  Executing the test against a behavior yields the ordered list of
observable events together with the exception (if any) escaping the test
function; `none` means pytest sees a passing test.
-/

namespace MmdsVsock

/-- Minimum lifetime of token (line 44 of the source). -/
def MIN_TOKEN_TTL_SECONDS : Nat := 1

/-- Maximum lifetime of token (line 46 of the source). -/
def MAX_TOKEN_TTL_SECONDS : Nat := 21600

/-- Number of microVMs driven by the test (line 53 of the source). -/
def NO_OF_MICROVMS : Nat := 20

/-- Number of rounds of the main loop (`for j in range(1000)`, line 219). -/
def ROUNDS : Nat := 1000

/-- A Python exception escaping one of the primitive operations.
`exception` is an ordinary `Exception` (caught by `except Exception`);
`interrupt` is a `BaseException` such as `KeyboardInterrupt`, which the
handler at line 233 does not catch, although `finally` still runs. -/
inductive Exc where
  | exception (msg : String)
  | interrupt (msg : String)
deriving DecidableEq

/-- Observable events of one execution of the test body. -/
inductive Event where
  /-- `_configure_and_run(microvms[i], ...)` plus the SSH probe, lines 204-213. -/
  | configure (i : Nat)
  /-- the guest-initiated echo check `check_guest_connections` inside
  `_run_vsock` (line 140) for instance `inst` in round `round`. -/
  | guestEcho (round inst : Nat)
  /-- the host-initiated echo check `check_host_connections`: present in the
  source only as the commented-out lines 143-144, so never emitted. -/
  | hostEcho (round inst : Nat)
  /-- the `test_microvm.mmds.patch` call inside `_patch_mmds` (line 161). -/
  | patchCall (round inst : Nat)
  /-- the `except Exception` handler, lines 233-241: prints the exception
  message and `traceback.print_exc()`. -/
  | caughtLog (msg : String)
  /-- `print(str(microvms[i].log_data))` in the `finally` block, line 245. -/
  | logDrain (i : Nat)
  /-- `close_guest_connections()` in the `finally` block, line 246. -/
  | closeGuestConns
  /-- `microvms[i].kill()` in the `finally` block, line 248. -/
  | kill (i : Nat)
deriving DecidableEq

/-- The environment: which primitive calls raise, and what they raise.
Arguments of the per-round functions are round index then instance index. -/
structure Behavior where
  configErr : Nat → Option Exc
  vsockErr : Nat → Nat → Option Exc
  patchErr : Nat → Nat → Option Exc
  killErr : Nat → Option Exc

/-- The configure loop, lines 204-213: `_configure_and_run` for each instance
in order; an exception propagates immediately (there is no surrounding
`try`). -/
def configLoop (b : Behavior) : List Nat → List Event × Option Exc
  | [] => ([], none)
  | i :: rest =>
    match b.configErr i with
    | some e => ([Event.configure i], some e)
    | none =>
      let r := configLoop b rest
      (Event.configure i :: r.1, r.2)

/-- The first inner loop of a round, lines 221-224: `_run_vsock` for each
instance in order.  Each call performs the guest-initiated echo check; an
exception propagates immediately. -/
def vsockSegment (b : Behavior) (j : Nat) : List Nat → List Event × Option Exc
  | [] => ([], none)
  | i :: rest =>
    match b.vsockErr j i with
    | some e => ([Event.guestEcho j i], some e)
    | none =>
      let r := vsockSegment b j rest
      (Event.guestEcho j i :: r.1, r.2)

/-- The second inner loop of a round, lines 225-227: `_patch_mmds` for each
instance in order; an exception propagates immediately. -/
def patchSegment (b : Behavior) (j : Nat) : List Nat → List Event × Option Exc
  | [] => ([], none)
  | i :: rest =>
    match b.patchErr j i with
    | some e => ([Event.patchCall j i], some e)
    | none =>
      let r := patchSegment b j rest
      (Event.patchCall j i :: r.1, r.2)

/-- One round `j`: the vsock loop over all instances, then (if no exception)
the patch loop over all instances. -/
def roundBody (b : Behavior) (N j : Nat) : List Event × Option Exc :=
  let v := vsockSegment b j (List.range N)
  match v.2 with
  | some e => (v.1, some e)
  | none =>
    let r := patchSegment b j (List.range N)
    (v.1 ++ r.1, r.2)

/-- The round loop, line 219: rounds execute in order; an exception
propagates immediately out of the loop. -/
def roundsLoop (b : Behavior) (N : Nat) : List Nat → List Event × Option Exc
  | [] => ([], none)
  | j :: rest =>
    let r1 := roundBody b N j
    match r1.2 with
    | some e => (r1.1, some e)
    | none =>
      let r := roundsLoop b N rest
      (r1.1 ++ r.1, r.2)

/-- The whole `try:` body: `R` rounds over `N` instances. -/
def runBody (R N : Nat) (b : Behavior) : List Event × Option Exc :=
  roundsLoop b N (List.range R)

/-- The kill loop of the `finally` block, lines 247-248: `microvms[i].kill()`
for each instance in order, with no exception handling, so a raising kill
stops the loop and the exception propagates. -/
def killLoop (b : Behavior) : List Nat → List Event × Option Exc
  | [] => ([], none)
  | i :: rest =>
    match b.killErr i with
    | some e => ([Event.kill i], some e)
    | none =>
      let r := killLoop b rest
      (Event.kill i :: r.1, r.2)

/-- The `finally` block, lines 242-248: print every instance's log data,
`close_guest_connections()`, then the kill loop. -/
def runFinally (N : Nat) (b : Behavior) : List Event × Option Exc :=
  let r := killLoop b (List.range N)
  ((List.range N).map Event.logDrain ++ [Event.closeGuestConns] ++ r.1, r.2)

/-- The events printed by the `except Exception` handler (lines 233-241) as
a function of the body's outcome: an ordinary exception is printed (message,
then stack trace); a completed body or an uncaught interruption prints
nothing. -/
def caughtTrace : Option Exc → List Event
  | none => []
  | some (Exc.exception m) => [Event.caughtLog m]
  | some (Exc.interrupt _) => []

/-- The exception still pending after the `except Exception` handler: an
ordinary exception has been caught and suppressed; an interruption was not
caught and is re-raised once `finally` completes. -/
def caughtPending : Option Exc → Option Exc
  | none => none
  | some (Exc.exception _) => none
  | some (Exc.interrupt m) => some (Exc.interrupt m)

/-- The `try`/`except Exception`/`finally` statement, lines 218-248.  An
ordinary exception from the body is caught and printed (message and stack
trace) and then suppressed; an interruption is not caught but `finally`
still runs and the interruption is re-raised afterwards.  If the `finally`
block itself raises, that exception replaces any pending one. -/
def runTest (R N : Nat) (b : Behavior) : List Event × Option Exc :=
  let body := runBody R N b
  let fin := runFinally N b
  (body.1 ++ caughtTrace body.2 ++ fin.1,
    match fin.2 with
    | some e => some e
    | none => caughtPending body.2)

/-- The whole test function `test_20vms_mmds_vsock`: the configure loop
(outside any `try`), then the `try`/`except`/`finally` statement.  An
exception in the configure loop propagates out of the test function without
reaching the `finally` block. -/
def runFullTest (R N : Nat) (b : Behavior) : List Event × Option Exc :=
  let c := configLoop b (List.range N)
  match c.2 with
  | some e => (c.1, some e)
  | none =>
    let r := runTest R N b
    (c.1 ++ r.1, r.2)

/-- `test_20vms_mmds_vsock` as written: 1000 rounds over 20 microVMs. -/
def test_20vms_mmds_vsock (b : Behavior) : List Event × Option Exc :=
  runFullTest ROUNDS NO_OF_MICROVMS b

/-! Spec-modelled components.  The following parts of the repository are
exercised by the test but their implementations are not under `src/` (they
live in the test framework or in the Firecracker MMDS server); they are
modelled from the spec, as their doc comments note. -/

/-- Modelled from the spec: the state of one microVM as seen by the Instance
Controller (`Microvm.kill` is framework code not under `src/`); only whether
the instance is still running matters to teardown. -/
structure MicrovmState where
  running : Bool
deriving DecidableEq

/-- Modelled from the spec: `teardown()` ("retrieves accumulated logs, then
forcibly stops the instance. Must be idempotent — calling it twice must not
raise").  `Microvm.kill` is framework code not under `src/`.  Stopping a
running instance stops it; a second call finds the instance already stopped
and returns without raising. -/
def microvmKill (s : MicrovmState) : MicrovmState × Option Exc :=
  if s.running then (⟨false⟩, none) else (s, none)

/-- Result of an MMDS session-token request. -/
inductive TokenResult where
  | ok (issuedAt ttl : Nat)
  | invalidTTL
deriving DecidableEq

/-- Modelled from the spec: MMDS token issuance (`request_token`), whose
server-side implementation is not under `src/`; only the TTL bound constants
(lines 43-46) are.  A requested TTL outside
`[MIN_TOKEN_TTL_SECONDS, MAX_TOKEN_TTL_SECONDS]` is rejected with
`InvalidTTL`; an in-range TTL yields a token valid for exactly that duration
from issuance, never clamped. -/
def request_token (now ttl : Nat) : TokenResult :=
  if MIN_TOKEN_TTL_SECONDS ≤ ttl ∧ ttl ≤ MAX_TOKEN_TTL_SECONDS then
    TokenResult.ok now ttl
  else
    TokenResult.invalidTTL

/-- Result of presenting a token to an MMDS read/write. -/
inductive AccessResult where
  | accepted
  | tokenExpired
deriving DecidableEq

/-- Modelled from the spec: MMDS token validation (server side, not under
`src/`): a token issued at `issuedAt` with lifetime `ttl` is accepted until
`ttl` seconds have elapsed and rejected with `TokenExpired` thereafter. -/
def checkToken (issuedAt ttl now : Nat) : AccessResult :=
  if now < issuedAt + ttl then AccessResult.accepted else AccessResult.tokenExpired

/-- Modelled from the spec: a blob as produced by the Blob Generator
(`make_blob` is framework code not under `src/`): a byte payload together
with its committed content hash. -/
structure Blob where
  content : List Nat
  committedHash : List Nat
deriving DecidableEq

/-- Modelled from the spec: the content hash of a payload.  The digest is
idealized as a collision-free fingerprint of the content (the spec relies
only on "same content iff same hash" for corruption detection), so it is
modelled as the content itself. -/
def blobHash (content : List Nat) : List Nat := content

/-- Modelled from the spec: `make_blob` commits the hash of the generated
content at generation time. -/
def make_blob (content : List Nat) : Blob :=
  ⟨content, blobHash content⟩

/-- Outcome of one echo verification. -/
inductive EchoResult where
  | success
  | integrityError (inst round : Nat) (why : String)
deriving DecidableEq

/-- Modelled from the spec: the Echo Verifier (`check_guest_connections` and
its workers are framework code not under `src/`).  It sends the blob's bytes
and examines the echoed response: `none` models a timeout or broken channel;
a response of the wrong length, or whose recomputed hash differs from the
blob's committed hash, is an `IntegrityError` identifying the instance and
round; only an exact match succeeds, with no retry. -/
def echoVerify (inst round : Nat) (b : Blob) (response : Option (List Nat)) :
    EchoResult :=
  match response with
  | none => EchoResult.integrityError inst round "timeout"
  | some resp =>
    if resp.length ≠ b.content.length then
      EchoResult.integrityError inst round "length mismatch"
    else if blobHash resp ≠ b.committedHash then
      EchoResult.integrityError inst round "hash mismatch"
    else
      EchoResult.success

/-- The response the MMDS server returns to the PATCH issued by
`_patch_mmds` (only its status code matters to the caller). -/
structure MmdsResponse where
  status_code : Nat
deriving DecidableEq

/-- `_patch_mmds`, lines 148-178 of the source: it sends the PATCH, binds
the response (`response = test_microvm.mmds.patch(json=dummy_json)`) and
returns; every status check on the response is commented out, so whatever
the server answered, no failure is recorded and nothing is raised. -/
def _patch_mmds (response : MmdsResponse) : Option Exc :=
  none

/-! Helper lemmas about the loops: closed forms in the absence of
exceptions, the shapes of the events each loop can emit, and where an
escaping exception can come from. -/

/-- If no configure call raises, the configure loop emits one `configure`
event per instance and completes. -/
theorem configLoop_eq_of_none (b : Behavior) :
    ∀ l : List Nat, (∀ i ∈ l, b.configErr i = none) →
      configLoop b l = (l.map Event.configure, none) := by
  intro l
  induction l with
  | nil => intro _; rfl
  | cons i rest ih =>
    intro h
    have hi : b.configErr i = none := h i (List.mem_cons_self i rest)
    have hr := ih fun k hk => h k (List.mem_cons_of_mem i hk)
    simp [configLoop, hi, hr]

/-- If no vsock check raises in round `j`, the vsock loop emits one
`guestEcho` event per instance and completes. -/
theorem vsockSegment_eq_of_none (b : Behavior) (j : Nat) :
    ∀ l : List Nat, (∀ i ∈ l, b.vsockErr j i = none) →
      vsockSegment b j l = (l.map (Event.guestEcho j), none) := by
  intro l
  induction l with
  | nil => intro _; rfl
  | cons i rest ih =>
    intro h
    have hi : b.vsockErr j i = none := h i (List.mem_cons_self i rest)
    have hr := ih fun k hk => h k (List.mem_cons_of_mem i hk)
    simp [vsockSegment, hi, hr]

/-- If no patch call raises in round `j`, the patch loop emits one
`patchCall` event per instance and completes. -/
theorem patchSegment_eq_of_none (b : Behavior) (j : Nat) :
    ∀ l : List Nat, (∀ i ∈ l, b.patchErr j i = none) →
      patchSegment b j l = (l.map (Event.patchCall j), none) := by
  intro l
  induction l with
  | nil => intro _; rfl
  | cons i rest ih =>
    intro h
    have hi : b.patchErr j i = none := h i (List.mem_cons_self i rest)
    have hr := ih fun k hk => h k (List.mem_cons_of_mem i hk)
    simp [patchSegment, hi, hr]

/-- If no kill raises, the kill loop emits one `kill` event per instance and
completes. -/
theorem killLoop_eq_of_none (b : Behavior) :
    ∀ l : List Nat, (∀ i ∈ l, b.killErr i = none) →
      killLoop b l = (l.map Event.kill, none) := by
  intro l
  induction l with
  | nil => intro _; rfl
  | cons i rest ih =>
    intro h
    have hi : b.killErr i = none := h i (List.mem_cons_self i rest)
    have hr := ih fun k hk => h k (List.mem_cons_of_mem i hk)
    simp [killLoop, hi, hr]

/-- Every event of the configure loop is a `configure` event for one of the
listed instances. -/
theorem mem_configLoop (b : Behavior) :
    ∀ (l : List Nat) (ev : Event), ev ∈ (configLoop b l).1 →
      ∃ i, i ∈ l ∧ ev = Event.configure i := by
  intro l
  induction l with
  | nil => intro ev h; simp [configLoop] at h
  | cons i rest ih =>
    intro ev h
    cases hc : b.configErr i with
    | some e =>
      simp [configLoop, hc] at h
      exact ⟨i, List.mem_cons_self i rest, h⟩
    | none =>
      simp only [configLoop, hc] at h
      rcases List.mem_cons.mp h with h | h
      · exact ⟨i, List.mem_cons_self i rest, h⟩
      · rcases ih ev h with ⟨k, hk, hev⟩
        exact ⟨k, List.mem_cons_of_mem i hk, hev⟩

/-- Every event of a round's vsock loop is a `guestEcho` event of that round
for one of the listed instances. -/
theorem mem_vsockSegment (b : Behavior) (j : Nat) :
    ∀ (l : List Nat) (ev : Event), ev ∈ (vsockSegment b j l).1 →
      ∃ i, i ∈ l ∧ ev = Event.guestEcho j i := by
  intro l
  induction l with
  | nil => intro ev h; simp [vsockSegment] at h
  | cons i rest ih =>
    intro ev h
    cases hc : b.vsockErr j i with
    | some e =>
      simp [vsockSegment, hc] at h
      exact ⟨i, List.mem_cons_self i rest, h⟩
    | none =>
      simp only [vsockSegment, hc] at h
      rcases List.mem_cons.mp h with h | h
      · exact ⟨i, List.mem_cons_self i rest, h⟩
      · rcases ih ev h with ⟨k, hk, hev⟩
        exact ⟨k, List.mem_cons_of_mem i hk, hev⟩

/-- Every event of a round's patch loop is a `patchCall` event of that round
for one of the listed instances. -/
theorem mem_patchSegment (b : Behavior) (j : Nat) :
    ∀ (l : List Nat) (ev : Event), ev ∈ (patchSegment b j l).1 →
      ∃ i, i ∈ l ∧ ev = Event.patchCall j i := by
  intro l
  induction l with
  | nil => intro ev h; simp [patchSegment] at h
  | cons i rest ih =>
    intro ev h
    cases hc : b.patchErr j i with
    | some e =>
      simp [patchSegment, hc] at h
      exact ⟨i, List.mem_cons_self i rest, h⟩
    | none =>
      simp only [patchSegment, hc] at h
      rcases List.mem_cons.mp h with h | h
      · exact ⟨i, List.mem_cons_self i rest, h⟩
      · rcases ih ev h with ⟨k, hk, hev⟩
        exact ⟨k, List.mem_cons_of_mem i hk, hev⟩

/-- Every event of the kill loop is a `kill` event for one of the listed
instances. -/
theorem mem_killLoop (b : Behavior) :
    ∀ (l : List Nat) (ev : Event), ev ∈ (killLoop b l).1 →
      ∃ i, i ∈ l ∧ ev = Event.kill i := by
  intro l
  induction l with
  | nil => intro ev h; simp [killLoop] at h
  | cons i rest ih =>
    intro ev h
    cases hc : b.killErr i with
    | some e =>
      simp [killLoop, hc] at h
      exact ⟨i, List.mem_cons_self i rest, h⟩
    | none =>
      simp only [killLoop, hc] at h
      rcases List.mem_cons.mp h with h | h
      · exact ⟨i, List.mem_cons_self i rest, h⟩
      · rcases ih ev h with ⟨k, hk, hev⟩
        exact ⟨k, List.mem_cons_of_mem i hk, hev⟩

/-- Every event of one round is a `guestEcho` or `patchCall` event of that
round for an instance below `N`. -/
theorem mem_roundBody (b : Behavior) (N j : Nat) (ev : Event)
    (h : ev ∈ (roundBody b N j).1) :
    ∃ i, i < N ∧ (ev = Event.guestEcho j i ∨ ev = Event.patchCall j i) := by
  cases hv : (vsockSegment b j (List.range N)).2 with
  | some e =>
    simp only [roundBody, hv] at h
    rcases mem_vsockSegment b j _ ev h with ⟨i, hi, hev⟩
    exact ⟨i, List.mem_range.mp hi, Or.inl hev⟩
  | none =>
    simp only [roundBody, hv, List.mem_append] at h
    rcases h with h | h
    · rcases mem_vsockSegment b j _ ev h with ⟨i, hi, hev⟩
      exact ⟨i, List.mem_range.mp hi, Or.inl hev⟩
    · rcases mem_patchSegment b j _ ev h with ⟨i, hi, hev⟩
      exact ⟨i, List.mem_range.mp hi, Or.inr hev⟩

/-- Every event of the round loop is a `guestEcho` or `patchCall` event of
one of the listed rounds for an instance below `N`. -/
theorem mem_roundsLoop (b : Behavior) (N : Nat) :
    ∀ (js : List Nat) (ev : Event), ev ∈ (roundsLoop b N js).1 →
      ∃ j i, j ∈ js ∧ i < N ∧
        (ev = Event.guestEcho j i ∨ ev = Event.patchCall j i) := by
  intro js
  induction js with
  | nil => intro ev h; simp [roundsLoop] at h
  | cons j rest ih =>
    intro ev h
    cases hr : (roundBody b N j).2 with
    | some e =>
      simp only [roundsLoop, hr] at h
      rcases mem_roundBody b N j ev h with ⟨i, hi, hev⟩
      exact ⟨j, i, List.mem_cons_self j rest, hi, hev⟩
    | none =>
      simp only [roundsLoop, hr, List.mem_append] at h
      rcases h with h | h
      · rcases mem_roundBody b N j ev h with ⟨i, hi, hev⟩
        exact ⟨j, i, List.mem_cons_self j rest, hi, hev⟩
      · rcases ih ev h with ⟨j2, i, hj2, hi, hev⟩
        exact ⟨j2, i, List.mem_cons_of_mem j hj2, hi, hev⟩

/-- Every event of the `finally` block is a `logDrain`, `closeGuestConns`
or `kill` event. -/
theorem mem_runFinally (N : Nat) (b : Behavior) (ev : Event)
    (h : ev ∈ (runFinally N b).1) :
    (∃ i, i < N ∧ (ev = Event.logDrain i ∨ ev = Event.kill i)) ∨
      ev = Event.closeGuestConns := by
  simp only [runFinally] at h
  rcases List.mem_append.mp h with h | h
  · rcases List.mem_append.mp h with h | h
    · rcases List.mem_map.mp h with ⟨i, hi, hev⟩
      exact Or.inl ⟨i, List.mem_range.mp hi, Or.inl hev.symm⟩
    · exact Or.inr (List.mem_singleton.mp h)
  · rcases mem_killLoop b _ ev h with ⟨i, hi, hev⟩
    exact Or.inl ⟨i, List.mem_range.mp hi, Or.inr hev⟩

/-- An exception escaping a round's vsock loop was raised by one of the
listed instances' vsock checks. -/
theorem vsockSegment_err (b : Behavior) (j : Nat) :
    ∀ (l : List Nat) (e : Exc), (vsockSegment b j l).2 = some e →
      ∃ i, i ∈ l ∧ b.vsockErr j i = some e := by
  intro l
  induction l with
  | nil => intro e h; simp [vsockSegment] at h
  | cons i rest ih =>
    intro e h
    cases hc : b.vsockErr j i with
    | some e2 =>
      simp only [vsockSegment, hc] at h
      exact ⟨i, List.mem_cons_self i rest, hc.trans (congrArg some (Option.some.inj h))⟩
    | none =>
      simp only [vsockSegment, hc] at h
      rcases ih e h with ⟨k, hk, he⟩
      exact ⟨k, List.mem_cons_of_mem i hk, he⟩

/-- An exception escaping a round's patch loop was raised by one of the
listed instances' patch calls. -/
theorem patchSegment_err (b : Behavior) (j : Nat) :
    ∀ (l : List Nat) (e : Exc), (patchSegment b j l).2 = some e →
      ∃ i, i ∈ l ∧ b.patchErr j i = some e := by
  intro l
  induction l with
  | nil => intro e h; simp [patchSegment] at h
  | cons i rest ih =>
    intro e h
    cases hc : b.patchErr j i with
    | some e2 =>
      simp only [patchSegment, hc] at h
      exact ⟨i, List.mem_cons_self i rest, hc.trans (congrArg some (Option.some.inj h))⟩
    | none =>
      simp only [patchSegment, hc] at h
      rcases ih e h with ⟨k, hk, he⟩
      exact ⟨k, List.mem_cons_of_mem i hk, he⟩

/-- An exception escaping one round was raised by some instance's vsock
check or patch call in that round. -/
theorem roundBody_err (b : Behavior) (N j : Nat) (e : Exc)
    (h : (roundBody b N j).2 = some e) :
    ∃ i, b.vsockErr j i = some e ∨ b.patchErr j i = some e := by
  cases hv : (vsockSegment b j (List.range N)).2 with
  | some e2 =>
    simp only [roundBody, hv] at h
    rcases vsockSegment_err b j _ e2 hv with ⟨i, _, he⟩
    exact ⟨i, Or.inl (he.trans (congrArg some (Option.some.inj h)))⟩
  | none =>
    simp only [roundBody, hv] at h
    rcases patchSegment_err b j _ e h with ⟨i, _, he⟩
    exact ⟨i, Or.inr he⟩

/-- An exception escaping the round loop was raised by some instance's
vsock check or patch call in some round. -/
theorem roundsLoop_err (b : Behavior) (N : Nat) :
    ∀ (js : List Nat) (e : Exc), (roundsLoop b N js).2 = some e →
      ∃ j i, b.vsockErr j i = some e ∨ b.patchErr j i = some e := by
  intro js
  induction js with
  | nil => intro e h; simp [roundsLoop] at h
  | cons j rest ih =>
    intro e h
    cases hr : (roundBody b N j).2 with
    | some e2 =>
      simp only [roundsLoop, hr] at h
      rcases roundBody_err b N j e2 hr with ⟨i, he⟩
      rcases Option.some.inj h with rfl
      exact ⟨j, i, he⟩
    | none =>
      simp only [roundsLoop, hr] at h
      exact ih e h

/-- If nothing raises in the vsock and patch loops, one round emits the
vsock events of all instances followed by the patch events of all
instances, and completes. -/
theorem roundBody_eq_of_none (b : Behavior) (N j : Nat)
    (hv : ∀ i, b.vsockErr j i = none) (hp : ∀ i, b.patchErr j i = none) :
    roundBody b N j =
      ((List.range N).map (Event.guestEcho j) ++
        (List.range N).map (Event.patchCall j), none) := by
  have h1 := vsockSegment_eq_of_none b j (List.range N) fun i _ => hv i
  have h2 := patchSegment_eq_of_none b j (List.range N) fun i _ => hp i
  simp [roundBody, h1, h2]

/-- If nothing raises in the vsock and patch loops, the round loop emits
the concatenation of all round traces and completes. -/
theorem roundsLoop_eq_of_none (b : Behavior) (N : Nat)
    (hv : ∀ j i, b.vsockErr j i = none) (hp : ∀ j i, b.patchErr j i = none) :
    ∀ js : List Nat,
      roundsLoop b N js =
        (js.flatMap (fun j => (List.range N).map (Event.guestEcho j) ++
          (List.range N).map (Event.patchCall j)), none) := by
  intro js
  induction js with
  | nil => rfl
  | cons j rest ih =>
    have h1 := roundBody_eq_of_none b N j (hv j) (hp j)
    simp [roundsLoop, h1, ih]

/-- `a` occurs strictly before `b` somewhere in the list `l`. -/
def precedes (a c : Event) (l : List Event) : Prop :=
  ∃ l1 l2, l = l1 ++ l2 ∧ a ∈ l1 ∧ c ∈ l2

/-- Order is preserved when events are appended after the list. -/
theorem precedes_append_right {a c : Event} {l l2 : List Event}
    (h : precedes a c l) : precedes a c (l ++ l2) := by
  rcases h with ⟨s1, s2, rfl, ha, hc⟩
  exact ⟨s1, s2 ++ l2, by rw [List.append_assoc], ha, List.mem_append.mpr (Or.inl hc)⟩

/-- Order is preserved when events are prepended before the list. -/
theorem precedes_append_left {a c : Event} {l l0 : List Event}
    (h : precedes a c l) : precedes a c (l0 ++ l) := by
  rcases h with ⟨s1, s2, rfl, ha, hc⟩
  exact ⟨l0 ++ s1, s2, by rw [List.append_assoc], List.mem_append.mpr (Or.inr ha),
    hc⟩

/-- The trace of the whole `try`/`except`/`finally` statement is the body's
events, then the handler's printout, then the `finally` block's events. -/
theorem runTest_fst (R N : Nat) (b : Behavior) :
    (runTest R N b).1 =
      (runBody R N b).1 ++ caughtTrace (runBody R N b).2 ++ (runFinally N b).1 :=
  rfl

/-- Everything the handler prints is a `caughtLog` event. -/
theorem mem_caughtTrace (o : Option Exc) (ev : Event) (h : ev ∈ caughtTrace o) :
    ∃ m, ev = Event.caughtLog m := by
  match o with
  | none => simp [caughtTrace] at h
  | some (Exc.exception m) =>
    simp [caughtTrace] at h
    exact ⟨m, h⟩
  | some (Exc.interrupt m) => simp [caughtTrace] at h

/-- If a round's vsock loop completes, it has emitted the `guestEcho` event
of every listed instance. -/
theorem vsockSegment_fst_of_none (b : Behavior) (j : Nat) :
    ∀ l : List Nat, (vsockSegment b j l).2 = none →
      (vsockSegment b j l).1 = l.map (Event.guestEcho j) := by
  intro l
  induction l with
  | nil => intro _; rfl
  | cons i rest ih =>
    intro h
    cases hc : b.vsockErr j i with
    | some e => simp [vsockSegment, hc] at h
    | none =>
      simp only [vsockSegment, hc] at h ⊢
      rw [ih h, List.map_cons]

/-- The body of the `try:` block never emits a `kill` event. -/
theorem kill_not_mem_body (R N i2 : Nat) (b : Behavior) :
    Event.kill i2 ∉ (runBody R N b).1 := by
  intro h
  rcases mem_roundsLoop b N (List.range R) _ h with ⟨j, k, _, _, h1 | h1⟩ <;>
    simp at h1

/-- If every kill before `i` succeeds and instance `i`'s kill raises, the
kill loop stops at `i`: it emits the kills of the prefix and of `i`, and
the exception escapes. -/
theorem killLoop_split (b : Behavior) (i : Nat) (e : Exc) (l2 : List Nat)
    (hi : b.killErr i = some e) :
    ∀ l1 : List Nat, (∀ k ∈ l1, b.killErr k = none) →
      killLoop b (l1 ++ i :: l2) =
        (l1.map Event.kill ++ [Event.kill i], some e) := by
  intro l1
  induction l1 with
  | nil => intro _; simp [killLoop, hi]
  | cons k rest ih =>
    intro h
    have hk : b.killErr k = none := h k (List.mem_cons_self k rest)
    have hr := ih fun k2 hk2 => h k2 (List.mem_cons_of_mem k hk2)
    simp [killLoop, hk, hr]

/-- Splitting `List.range N` at an index `i < N`. -/
theorem range_split (N i : Nat) (h : i < N) :
    List.range N =
      List.range i ++ i :: ((List.range (N - i - 1)).map fun k => i + (k + 1)) := by
  have hN : N = i + (N - i) := by omega
  have h2 : N - i = (N - i - 1) + 1 := by omega
  rw [hN, List.range_add, h2, List.range_succ_eq_map]
  simp [List.map_map, Function.comp_def, Nat.succ_eq_add_one]

/-- A `hostEcho` event never occurs: the host-initiated connection check is
commented out in the source (lines 143-144). -/
theorem hostEcho_not_mem (R N : Nat) (b : Behavior) (j i : Nat) :
    Event.hostEcho j i ∉ (runFullTest R N b).1 := by
  intro h
  cases hcfg : (configLoop b (List.range N)).2 with
  | some e =>
    simp only [runFullTest, hcfg] at h
    rcases mem_configLoop b _ _ h with ⟨k, _, hk⟩
    simp at hk
  | none =>
    simp only [runFullTest, hcfg, List.mem_append] at h
    rcases h with h | h
    · rcases mem_configLoop b _ _ h with ⟨k, _, hk⟩
      simp at hk
    · rw [runTest_fst] at h
      rcases List.mem_append.mp h with h | h
      · rcases List.mem_append.mp h with h | h
        · rcases mem_roundsLoop b N (List.range R) _ h with ⟨j2, k, _, _, hk | hk⟩ <;>
            simp at hk
        · rcases mem_caughtTrace _ _ h with ⟨m, hm⟩
          simp at hm
      · rcases mem_runFinally N b _ h with ⟨k, _, hk | hk⟩ | hk <;> simp at hk

/-- If no operation raises at all, the full test emits the configure events,
then every round's echo and patch events, then the cleanup events, and the
test passes. -/
theorem runFullTest_eq_of_none (R N : Nat) (b : Behavior)
    (hc : ∀ i, b.configErr i = none) (hv : ∀ j i, b.vsockErr j i = none)
    (hp : ∀ j i, b.patchErr j i = none) (hk : ∀ i, b.killErr i = none) :
    runFullTest R N b =
      ((List.range N).map Event.configure ++
        (((List.range R).flatMap fun j =>
          (List.range N).map (Event.guestEcho j) ++
            (List.range N).map (Event.patchCall j)) ++
          ((List.range N).map Event.logDrain ++ [Event.closeGuestConns] ++
            (List.range N).map Event.kill)), none) := by
  have hcl := configLoop_eq_of_none b (List.range N) fun i _ => hc i
  have hkl := killLoop_eq_of_none b (List.range N) fun i _ => hk i
  have hbl := roundsLoop_eq_of_none b N hv hp (List.range R)
  simp [runFullTest, runTest, runFinally, runBody, hcl, hkl, hbl, caughtTrace,
    caughtPending]

/-- In the concatenated traces of a duplicate-free list of rounds, the echo
check of instance `i` in round `j` occurs exactly once when `j` is one of
the rounds and `i < N`, and never otherwise. -/
theorem count_guestEcho_flat (N j i : Nat) :
    ∀ js : List Nat, js.Nodup →
      ((js.flatMap fun j2 => (List.range N).map (Event.guestEcho j2) ++
        (List.range N).map (Event.patchCall j2)).count (Event.guestEcho j i)) =
        if j ∈ js ∧ i < N then 1 else 0 := by
  intro js
  induction js with
  | nil => intro _; simp
  | cons j2 rest ih =>
    intro hnd
    have hpz :
        ((List.range N).map (Event.patchCall j2)).count (Event.guestEcho j i) = 0 := by
      rw [List.count_eq_zero]
      intro hmem
      rcases List.mem_map.mp hmem with ⟨k, _, hk⟩
      simp at hk
    have hinj : Function.Injective (Event.guestEcho j2) := by
      intro a c h
      injection h
    rw [List.flatMap_cons, List.count_append, List.count_append, hpz,
      ih (List.Nodup.of_cons hnd)]
    by_cases hj : j = j2
    · subst hj
      have hjrest : j ∉ rest := (List.nodup_cons.mp hnd).1
      by_cases hi : i < N
      · have hmem : Event.guestEcho j i ∈ (List.range N).map (Event.guestEcho j) :=
          List.mem_map.mpr ⟨i, List.mem_range.mpr hi, rfl⟩
        have hone := List.count_eq_one_of_mem
          (List.Nodup.map hinj (List.nodup_range N)) hmem
        rw [hone]
        simp [List.mem_cons, hjrest, hi]
      · have hz : ((List.range N).map (Event.guestEcho j)).count (Event.guestEcho j i) = 0 := by
          rw [List.count_eq_zero]
          intro hmem
          rcases List.mem_map.mp hmem with ⟨k, hk, hk2⟩
          obtain ⟨-, hki⟩ := Event.guestEcho.inj hk2
          exact hi (hki ▸ List.mem_range.mp hk)
        rw [hz]
        simp [hi]
    · have hz : ((List.range N).map (Event.guestEcho j2)).count (Event.guestEcho j i) = 0 := by
        rw [List.count_eq_zero]
        intro hmem
        rcases List.mem_map.mp hmem with ⟨k, _, hk2⟩
        injection hk2 with h1 h2
        exact hj h1.symm
      rw [hz]
      simp [List.mem_cons, hj]

/-- Within one round's trace, the patch call of `(j, i)` is preceded by the
echo check of `(j, i)`, and can occur only in round `j` itself. -/
theorem roundBody_patch_precedes (b : Behavior) (N j i j2 : Nat)
    (h : Event.patchCall j i ∈ (roundBody b N j2).1) :
    precedes (Event.guestEcho j i) (Event.patchCall j i) (roundBody b N j2).1 := by
  cases hv : (vsockSegment b j2 (List.range N)).2 with
  | some e =>
    simp only [roundBody, hv] at h
    rcases mem_vsockSegment b j2 _ _ h with ⟨k, _, hk⟩
    simp at hk
  | none =>
    simp only [roundBody, hv] at h ⊢
    rcases List.mem_append.mp h with h | h
    · rcases mem_vsockSegment b j2 _ _ h with ⟨k, _, hk⟩
      simp at hk
    · rcases mem_patchSegment b j2 _ _ h with ⟨k, hk, hk2⟩
      obtain ⟨hj, hik⟩ := Event.patchCall.inj hk2
      subst hj
      subst hik
      have hecho : Event.guestEcho j i ∈ (vsockSegment b j (List.range N)).1 := by
        rw [vsockSegment_fst_of_none b j _ hv]
        exact List.mem_map.mpr ⟨i, hk, rfl⟩
      exact ⟨(vsockSegment b j (List.range N)).1,
        (patchSegment b j (List.range N)).1, rfl, hecho, h⟩

/-- Across the round loop, every patch call is preceded by the same
instance's echo check of the same round. -/
theorem roundsLoop_patch_precedes (b : Behavior) (N j i : Nat) :
    ∀ js : List Nat, Event.patchCall j i ∈ (roundsLoop b N js).1 →
      precedes (Event.guestEcho j i) (Event.patchCall j i) (roundsLoop b N js).1 := by
  intro js
  induction js with
  | nil => intro h; simp [roundsLoop] at h
  | cons j2 rest ih =>
    intro h
    cases hr : (roundBody b N j2).2 with
    | some e =>
      simp only [roundsLoop, hr] at h ⊢
      exact roundBody_patch_precedes b N j i j2 h
    | none =>
      simp only [roundsLoop, hr] at h ⊢
      rcases List.mem_append.mp h with h | h
      · exact precedes_append_right (roundBody_patch_precedes b N j i j2 h)
      · exact precedes_append_left (ih h)

/-! Concrete environments used as witnesses and counterexamples. -/

/-- An environment in which no operation ever raises. -/
def bOk : Behavior :=
  ⟨fun _ => none, fun _ _ => none, fun _ _ => none, fun _ => none⟩

/-- Instance 0's vsock echo check raises an ordinary exception in round 0;
everything else succeeds. -/
def bEchoFail : Behavior :=
  ⟨fun _ => none,
   fun j i => if j = 0 ∧ i = 0 then some (Exc.exception "boom") else none,
   fun _ _ => none,
   fun _ => none⟩

/-- Instance 0's configuration raises; everything else succeeds. -/
def bConfigFail : Behavior :=
  ⟨fun i => if i = 0 then some (Exc.exception "cfg") else none,
   fun _ _ => none, fun _ _ => none, fun _ => none⟩

/-- Instance 0's kill raises during cleanup; everything else succeeds. -/
def bKillFail : Behavior :=
  ⟨fun _ => none, fun _ _ => none, fun _ _ => none,
   fun i => if i = 0 then some (Exc.exception "kill fail") else none⟩

/-! The claims. -/

/-- Claim C1 is false on the code: with 2 rounds over 2 instances, when
instance 0's echo check raises an ordinary exception in round 0, the
exception is caught and its message logged, but instance 1's check in round
0 and every check of round 1 never execute — the remaining instances are
not evaluated independently. -/
theorem C1_counterexample :
    bEchoFail.vsockErr 0 0 = some (Exc.exception "boom") ∧
    Event.caughtLog "boom" ∈ (runTest 2 2 bEchoFail).1 ∧
    Event.guestEcho 0 1 ∉ (runTest 2 2 bEchoFail).1 ∧
    Event.guestEcho 1 0 ∉ (runTest 2 2 bEchoFail).1 ∧
    Event.guestEcho 1 1 ∉ (runTest 2 2 bEchoFail).1 := by
  decide

/-- Claim C1 (amended): an exception raised by any single instance's check
propagates to the single `except Exception` handler outside the round loop,
which logs the exception's message and stack trace (without a structured
instance or round index); checking then stops — after the caught log only
the cleanup events of the `finally` block follow, and none of them is an
echo check or a metadata patch of any instance. -/
theorem C1_theorem (R N : Nat) (b : Behavior) (bt : List Event) (e : String)
    (h : runBody R N b = (bt, some (Exc.exception e))) :
    (runTest R N b).1 = bt ++ Event.caughtLog e :: (runFinally N b).1 ∧
    ∀ ev ∈ (runFinally N b).1, ∀ j i,
      ev ≠ Event.guestEcho j i ∧ ev ≠ Event.hostEcho j i ∧
        ev ≠ Event.patchCall j i := by
  constructor
  · rw [runTest_fst, h]
    simp [caughtTrace]
  · intro ev hev j i
    rcases mem_runFinally N b ev hev with ⟨k, _, hk | hk⟩ | hk <;> subst hk <;>
      exact ⟨by simp, by simp, by simp⟩

/-- Witness for C1: the amended behavior at the concrete failing run. -/
theorem C1_witness :
    runBody 2 2 bEchoFail = ([Event.guestEcho 0 0], some (Exc.exception "boom")) ∧
    ((runTest 2 2 bEchoFail).1 =
      [Event.guestEcho 0 0] ++ Event.caughtLog "boom" :: (runFinally 2 bEchoFail).1 ∧
    ∀ ev ∈ (runFinally 2 bEchoFail).1, ∀ j i,
      ev ≠ Event.guestEcho j i ∧ ev ≠ Event.hostEcho j i ∧
        ev ≠ Event.patchCall j i) :=
  ⟨by decide, C1_theorem 2 2 bEchoFail [Event.guestEcho 0 0] "boom" (by decide)⟩

/-- Claim C2 is false on the code: with 1 round over 1 instance, the
instance's echo check fails in round 0, yet the test's outcome is `none` —
the exception was swallowed by the handler, so pytest reports a pass, not
the non-zero outcome the claim requires. -/
theorem C2_counterexample :
    bEchoFail.vsockErr 0 0 = some (Exc.exception "boom") ∧
    (runTest 1 1 bEchoFail).2 = none := by
  decide

/-- Claim C2 (amended): provided the orchestrator is not interrupted and no
kill raises during cleanup, the test always ends with a passing outcome —
including when instances' checks failed: the handler swallows the (single,
first) exception after printing it, and no summary enumerating failures is
produced.  In particular a run with no failures also passes. -/
theorem C2_theorem (R N : Nat) (b : Behavior)
    (hni : ∀ j i m, b.vsockErr j i ≠ some (Exc.interrupt m) ∧
      b.patchErr j i ≠ some (Exc.interrupt m))
    (hk : ∀ i, i < N → b.killErr i = none) :
    (runTest R N b).2 = none ∧
    ∀ m, (runBody R N b).2 = some (Exc.exception m) →
      Event.caughtLog m ∈ (runTest R N b).1 := by
  have hfin : (runFinally N b).2 = none := by
    simp [runFinally,
      killLoop_eq_of_none b (List.range N) fun i hi => hk i (List.mem_range.mp hi)]
  constructor
  · cases hb : (runBody R N b).2 with
    | none => simp [runTest, hfin, hb, caughtPending]
    | some e =>
      cases e with
      | exception m => simp [runTest, hfin, hb, caughtPending]
      | interrupt m =>
        exfalso
        rcases roundsLoop_err b N (List.range R) _ hb with ⟨j, i, he | he⟩
        · exact (hni j i m).1 he
        · exact (hni j i m).2 he
  · intro m hb
    rw [runTest_fst, hb]
    simp [caughtTrace]

/-- Witness for C2: the amended behavior at the concrete failing run. -/
theorem C2_witness :
    (runTest 1 1 bEchoFail).2 = none ∧
    ∀ m, (runBody 1 1 bEchoFail).2 = some (Exc.exception m) →
      Event.caughtLog m ∈ (runTest 1 1 bEchoFail).1 :=
  C2_theorem 1 1 bEchoFail
    (by
      intro j i m
      constructor
      · simp only [bEchoFail]
        split <;> simp
      · simp [bEchoFail])
    (fun i _ => rfl)

/-- Claim C3: on every execution path out of the round loop — normal
completion, a caught exception, or an interruption of the orchestrator
itself (all captured by quantifying over every environment whose configure
phase succeeded) — the `finally` block runs: the trace always ends by
draining and printing every instance's captured logs and then (provided no
kill itself raises) calling kill on every instance, in that order. -/
theorem C3_theorem (R N : Nat) (b : Behavior)
    (hc : ∀ i, i < N → b.configErr i = none)
    (hk : ∀ i, i < N → b.killErr i = none) :
    ∃ t0, (runFullTest R N b).1 =
      t0 ++ (List.range N).map Event.logDrain ++ [Event.closeGuestConns] ++
        (List.range N).map Event.kill := by
  have hcl := configLoop_eq_of_none b (List.range N)
    fun i hi => hc i (List.mem_range.mp hi)
  have hkl := killLoop_eq_of_none b (List.range N)
    fun i hi => hk i (List.mem_range.mp hi)
  refine ⟨(List.range N).map Event.configure ++ (runBody R N b).1 ++
    caughtTrace (runBody R N b).2, ?_⟩
  simp [runFullTest, runTest, runFinally, hcl, hkl, List.append_assoc]

/-- Witness for C3 at a concrete run. -/
theorem C3_witness :
    ∃ t0, (runFullTest 1 1 bOk).1 =
      t0 ++ (List.range 1).map Event.logDrain ++ [Event.closeGuestConns] ++
        (List.range 1).map Event.kill :=
  C3_theorem 1 1 bOk (fun _ _ => rfl) (fun _ _ => rfl)

/-- Claim C4 is false on the code: with 2 instances, when instance 0's
configuration raises, the whole test aborts before the `try`/`finally` is
entered — no log is drained and no kill is called for instance 1 (nor for
instance 0), so the failure does prevent cleanup of the other instances. -/
theorem C4_counterexample :
    bConfigFail.configErr 0 = some (Exc.exception "cfg") ∧
    (runFullTest 1 2 bConfigFail).1 = [Event.configure 0] ∧
    Event.logDrain 1 ∉ (runFullTest 1 2 bConfigFail).1 ∧
    Event.kill 1 ∉ (runFullTest 1 2 bConfigFail).1 := by
  decide

/-- Claim C4 (amended): a failure while configuring and starting any
instance is fatal to the whole test: the configure loop runs outside the
`try` statement, so the exception propagates out of the test function
before the `try`/`finally` is entered, the trace contains only configure
events, and the guaranteed-cleanup phase (log draining and teardown) runs
for no instance at all. -/
theorem C4_theorem (R N : Nat) (b : Behavior) (ct : List Event) (e : Exc)
    (h : configLoop b (List.range N) = (ct, some e)) :
    runFullTest R N b = (ct, some e) ∧
    ∀ ev ∈ ct, ∃ i, ev = Event.configure i := by
  constructor
  · simp [runFullTest, h]
  · intro ev hev
    have hm : ev ∈ (configLoop b (List.range N)).1 := by rw [h]; exact hev
    rcases mem_configLoop b _ ev hm with ⟨i, _, hev2⟩
    exact ⟨i, hev2⟩

/-- Witness for C4: the amended behavior at the concrete failing run. -/
theorem C4_witness :
    runFullTest 1 2 bConfigFail = ([Event.configure 0], some (Exc.exception "cfg")) ∧
    ∀ ev ∈ [Event.configure 0], ∃ i, ev = Event.configure i :=
  C4_theorem 1 2 bConfigFail [Event.configure 0] (Exc.exception "cfg") (by decide)

/-- Claim C5 is false on the code: with 2 instances, when instance 0's kill
raises during cleanup, the exception is neither caught nor logged — it
propagates out of the `finally` block (becoming the run's outcome) and the
kill of instance 1 is never attempted. -/
theorem C5_counterexample :
    bKillFail.killErr 0 = some (Exc.exception "kill fail") ∧
    Event.kill 0 ∈ (runTest 1 2 bKillFail).1 ∧
    Event.kill 1 ∉ (runTest 1 2 bKillFail).1 ∧
    (runTest 1 2 bKillFail).2 = some (Exc.exception "kill fail") := by
  decide

/-- Claim C5 (amended): a teardown failure is not caught: if instance `i`
is the first whose kill raises, the exception propagates out of the
`finally` block and becomes the run's outcome, and teardown is not
attempted for any later instance.  Teardown itself — modelled from the
spec, since `Microvm.kill` is framework code not under `src/` — is
idempotent: a second call on an already stopped instance does not raise. -/
theorem C5_theorem (R N i : Nat) (b : Behavior) (e : Exc)
    (hiN : i < N) (hie : b.killErr i = some e)
    (hfirst : ∀ k, k < i → b.killErr k = none) :
    (runTest R N b).2 = some e ∧
    (∀ i2, i < i2 → Event.kill i2 ∉ (runTest R N b).1) ∧
    (∀ s : MicrovmState, (microvmKill (microvmKill s).1).2 = none) := by
  have hkl : killLoop b (List.range N) =
      ((List.range i).map Event.kill ++ [Event.kill i], some e) := by
    rw [range_split N i hiN]
    exact killLoop_split b i e _ hie (List.range i)
      fun k hk => hfirst k (List.mem_range.mp hk)
  refine ⟨?_, ?_, ?_⟩
  · simp [runTest, runFinally, hkl]
  · intro i2 hii2 hmem
    rw [runTest_fst] at hmem
    rcases List.mem_append.mp hmem with h1 | h1
    · rcases List.mem_append.mp h1 with h2 | h2
      · exact kill_not_mem_body R N i2 b h2
      · rcases mem_caughtTrace _ _ h2 with ⟨m, hm⟩
        simp at hm
    · have h2 : Event.kill i2 ∈ (List.range N).map Event.logDrain ++
          [Event.closeGuestConns] ++
          ((List.range i).map Event.kill ++ [Event.kill i]) := by
        simpa [runFinally, hkl] using h1
      rcases List.mem_append.mp h2 with h3 | h3
      · rcases List.mem_append.mp h3 with h4 | h4
        · rcases List.mem_map.mp h4 with ⟨k, _, hk⟩
          simp at hk
        · simp at h4
      · rcases List.mem_append.mp h3 with h4 | h4
        · rcases List.mem_map.mp h4 with ⟨k, hk, hk2⟩
          have hki : k = i2 := Event.kill.inj hk2
          have hklt : k < i := List.mem_range.mp hk
          omega
        · have hi2 : Event.kill i2 = Event.kill i := List.mem_singleton.mp h4
          have : i2 = i := Event.kill.inj hi2
          omega
  · intro s
    rcases s with ⟨r⟩
    cases r <;> rfl

/-- Witness for C5: the amended behavior at the concrete failing run. -/
theorem C5_witness :
    (runTest 1 2 bKillFail).2 = some (Exc.exception "kill fail") ∧
    (∀ i2, 0 < i2 → Event.kill i2 ∉ (runTest 1 2 bKillFail).1) ∧
    (∀ s : MicrovmState, (microvmKill (microvmKill s).1).2 = none) :=
  C5_theorem 1 2 0 bKillFail (Exc.exception "kill fail") (by decide) (by decide)
    fun k hk => absurd hk (Nat.not_lt_zero k)

/-- Claim C6 is false on the code: in a run of one round over one instance
in which nothing raises, the instance's echo check runs in the
guest-initiated direction, but no host-initiated echo check ever occurs —
the `check_host_connections` call is commented out (lines 143-144), so the
Echo Verifier is not run in both directions. -/
theorem C6_counterexample :
    Event.guestEcho 0 0 ∈ (runFullTest 1 1 bOk).1 ∧
    Event.hostEcho 0 0 ∉ (runFullTest 1 1 bOk).1 := by
  decide

/-- Claim C6 (amended): in every round, every instance's Echo Verifier runs
in the guest-initiated direction only — exactly one guest-initiated echo
check per instance per round (when no operation raises), and never any
host-initiated check. -/
theorem C6_theorem (R N : Nat) (b : Behavior)
    (hc : ∀ i, b.configErr i = none) (hv : ∀ j i, b.vsockErr j i = none)
    (hp : ∀ j i, b.patchErr j i = none) (hk : ∀ i, b.killErr i = none)
    (j i : Nat) (hj : j < R) (hi : i < N) :
    (runFullTest R N b).1.count (Event.guestEcho j i) = 1 ∧
    (runFullTest R N b).1.count (Event.hostEcho j i) = 0 := by
  constructor
  · rw [runFullTest_eq_of_none R N b hc hv hp hk]
    have h1 : ((List.range N).map Event.configure).count (Event.guestEcho j i) = 0 := by
      rw [List.count_eq_zero]
      intro hm
      rcases List.mem_map.mp hm with ⟨k, _, hk2⟩
      simp at hk2
    have h2 : ((List.range N).map Event.logDrain).count (Event.guestEcho j i) = 0 := by
      rw [List.count_eq_zero]
      intro hm
      rcases List.mem_map.mp hm with ⟨k, _, hk2⟩
      simp at hk2
    have h3 : ([Event.closeGuestConns] : List Event).count (Event.guestEcho j i) = 0 := by
      rw [List.count_eq_zero]
      intro hm
      simp at hm
    have h4 : ((List.range N).map Event.kill).count (Event.guestEcho j i) = 0 := by
      rw [List.count_eq_zero]
      intro hm
      rcases List.mem_map.mp hm with ⟨k, _, hk2⟩
      simp at hk2
    have hflat := count_guestEcho_flat N j i (List.range R) (List.nodup_range R)
    simp only [List.count_append, h1, h2, h3, h4, hflat]
    rw [if_pos ⟨List.mem_range.mpr hj, hi⟩]
  · rw [List.count_eq_zero]
    exact hostEcho_not_mem R N b j i

/-- Witness for C6 at a concrete failure-free run. -/
theorem C6_witness :
    (runFullTest 1 1 bOk).1.count (Event.guestEcho 0 0) = 1 ∧
    (runFullTest 1 1 bOk).1.count (Event.hostEcho 0 0) = 0 :=
  C6_theorem 1 1 bOk (fun _ => rfl) (fun _ _ => rfl) (fun _ _ => rfl) (fun _ => rfl)
    0 0 (by decide) (by decide)

/-- Claim C7: whenever the metadata patch of instance `i` for round `j`
runs, that same instance's echo check for round `j` occurred strictly
earlier in the trace — within a round, the vsock loop over all instances
completes before the patch loop begins, so the echo-then-patch causal
order is preserved per instance in every round. -/
theorem C7_theorem (R N : Nat) (b : Behavior) (j i : Nat)
    (h : Event.patchCall j i ∈ (runFullTest R N b).1) :
    precedes (Event.guestEcho j i) (Event.patchCall j i) (runFullTest R N b).1 := by
  cases hcfg : (configLoop b (List.range N)).2 with
  | some e =>
    exfalso
    simp only [runFullTest, hcfg] at h
    rcases mem_configLoop b _ _ h with ⟨k, _, hk⟩
    simp at hk
  | none =>
    simp only [runFullTest, hcfg] at h ⊢
    rcases List.mem_append.mp h with h | h
    · exfalso
      rcases mem_configLoop b _ _ h with ⟨k, _, hk⟩
      simp at hk
    · refine precedes_append_left ?_
      rw [runTest_fst] at h ⊢
      rcases List.mem_append.mp h with h | h
      · rcases List.mem_append.mp h with h | h
        · exact precedes_append_right (precedes_append_right
            (roundsLoop_patch_precedes b N j i (List.range R) h))
        · exfalso
          rcases mem_caughtTrace _ _ h with ⟨m, hm⟩
          simp at hm
      · exfalso
        rcases mem_runFinally N b _ h with ⟨k, _, hk | hk⟩ | hk <;> simp at hk

/-- Witness for C7 at a concrete run. -/
theorem C7_witness :
    Event.patchCall 0 0 ∈ (runFullTest 1 1 bOk).1 ∧
    precedes (Event.guestEcho 0 0) (Event.patchCall 0 0) (runFullTest 1 1 bOk).1 :=
  ⟨by decide, C7_theorem 1 1 bOk 0 0 (by decide)⟩

/-- Claim C8: a TTL outside `[MIN_TOKEN_TTL_SECONDS, MAX_TOKEN_TTL_SECONDS]`
is rejected at issuance with `InvalidTTL` — no token (clamped or otherwise)
is produced; an in-range TTL yields a token carrying exactly the requested
lifetime, accepted by reads and writes at every instant before `ttl`
seconds from issuance have elapsed and rejected as `TokenExpired` at every
instant from then on. -/
theorem C8_theorem (now ttl : Nat) :
    (¬(MIN_TOKEN_TTL_SECONDS ≤ ttl ∧ ttl ≤ MAX_TOKEN_TTL_SECONDS) →
      request_token now ttl = TokenResult.invalidTTL) ∧
    ((MIN_TOKEN_TTL_SECONDS ≤ ttl ∧ ttl ≤ MAX_TOKEN_TTL_SECONDS) →
      request_token now ttl = TokenResult.ok now ttl ∧
      (∀ t, t < now + ttl → checkToken now ttl t = AccessResult.accepted) ∧
      (∀ t, now + ttl ≤ t → checkToken now ttl t = AccessResult.tokenExpired)) := by
  refine ⟨fun h => ?_, fun h => ⟨?_, fun t ht => ?_, fun t ht => ?_⟩⟩
  · simp [request_token, h]
  · simp [request_token, h]
  · simp [checkToken, ht]
  · simp [checkToken, Nat.not_lt.mpr ht]

/-- Witness for C8: TTL 0 is rejected; TTL 1 issued at time 5 is accepted
at time 5 and expired at time 6. -/
theorem C8_witness :
    request_token 5 0 = TokenResult.invalidTTL ∧
    request_token 5 1 = TokenResult.ok 5 1 ∧
    checkToken 5 1 5 = AccessResult.accepted ∧
    checkToken 5 1 6 = AccessResult.tokenExpired :=
  ⟨(C8_theorem 5 0).1 (by decide),
    ((C8_theorem 5 1).2 (by decide)).1,
    ((C8_theorem 5 1).2 (by decide)).2.1 5 (by decide),
    ((C8_theorem 5 1).2 (by decide)).2.2 6 (by decide)⟩

/-- Claim C9: sending a generated blob's bytes through the echo channel and
receiving them back unchanged verifies successfully (the recomputed hash
equals the committed hash), while any corruption — a response with
different bytes (wrong length or wrong content) or a timeout — fails with
an `IntegrityError` carrying the instance and round indices; the verifier
is a single-shot check, so no retry can mask the corruption. -/
theorem C9_theorem (inst round : Nat) (content : List Nat) :
    echoVerify inst round (make_blob content) (some content) = EchoResult.success ∧
    (∀ resp : List Nat, resp ≠ content →
      ∃ why, echoVerify inst round (make_blob content) (some resp) =
        EchoResult.integrityError inst round why) ∧
    (∃ why, echoVerify inst round (make_blob content) none =
      EchoResult.integrityError inst round why) := by
  refine ⟨by simp [echoVerify, make_blob, blobHash], fun resp hne => ?_, ⟨"timeout", rfl⟩⟩
  by_cases hl : resp.length = content.length
  · refine ⟨"hash mismatch", ?_⟩
    have hh : ¬blobHash resp = blobHash content := by
      simpa [blobHash] using hne
    simp [echoVerify, make_blob, hl, hh]
  · exact ⟨"length mismatch", by simp [echoVerify, make_blob, hl]⟩

/-- Witness for C9: the blob `[1, 2]` echoes back successfully, while the
corrupted response `[1, 3]` is caught as an integrity error. -/
theorem C9_witness :
    echoVerify 0 0 (make_blob [1, 2]) (some [1, 2]) = EchoResult.success ∧
    (∃ why, echoVerify 0 0 (make_blob [1, 2]) (some [1, 3]) =
      EchoResult.integrityError 0 0 why) ∧
    (∃ why, echoVerify 0 0 (make_blob [1, 2]) none =
      EchoResult.integrityError 0 0 why) :=
  ⟨(C9_theorem 0 0 [1, 2]).1,
    (C9_theorem 0 0 [1, 2]).2.1 [1, 3] (by decide),
    (C9_theorem 0 0 [1, 2]).2.2⟩

/-- Claim C10: `_patch_mmds` sends the PATCH and discards the response
without inspecting its status — every status check in its body is commented
out — so for any response the server returns (success, rejection or
failure), the call raises nothing and records no failure, and its result
does not depend on the response at all. -/
theorem C10_theorem (r1 r2 : MmdsResponse) :
    _patch_mmds r1 = none ∧ _patch_mmds r1 = _patch_mmds r2 :=
  ⟨rfl, rfl⟩

end MmdsVsock
